import Mathlib

/-! memdb: the store, the session handler and the serve loop.

A shallow embedding of `memdb.go` and `server.go`.

* Go strings are lists of Unicode code points (`GoString`); text that is not
  valid UTF-8 is outside the embedding.
* A Go `map` is an association list with pairwise distinct keys (`AList`),
  or `none` for the nil map. The order of the entries stands for one of the
  iteration orders the Go runtime may pick; no theorem below depends on it.
* The mutex of `memoryDB` is not modelled: operations are applied one after
  the other, which is what the lock guarantees for the store.
* `log.Fatal` and a panic end the process; a process that has ended is
  marked `aborted` and takes no further step.
* `handleConn` takes the lines of the input that its scanner reads
  (`scanLines` cuts the input into them) and applies the size limit of the
  scanner to each; the events of the serve loop are at the level of what the
  scanner delivered to a handler.
* The case table behind `unicode.ToLower` belongs to the Go library and is a
  parameter `tbl` of every function that lower-cases.
-/

namespace MemDB

/-- Go `string`. -/
abbrev GoString := List Char

/-- Go `any`, as far as the store can hold it: the nil interface, a string
(what `set` stores), or a value decoded from the snapshot, kept as the text
that the `%v` verb prints for it. -/
inductive GoAny where
  | nil
  | str (s : GoString)
  | decoded (text : GoString)
  deriving DecidableEq, Repr

/-- `type memoryDB struct { items map[string]any; mu sync.RWMutex }`. The
field `items` is `none` for the nil map. -/
structure memoryDB where
  items : Option (AList (fun _ : GoString => GoAny))

/-- Two stores are equal when both maps are nil or both hold the same entries. -/
instance : DecidableEq memoryDB := fun a b =>
  decidable_of_iff (a.items.map AList.entries = b.items.map AList.entries)
    ⟨by
      intro h
      obtain ⟨x⟩ := a
      obtain ⟨y⟩ := b
      cases x with
      | none =>
        cases y with
        | none => rfl
        | some v => exact Option.noConfusion h
      | some u =>
        cases y with
        | none => exact Option.noConfusion h
        | some v =>
          exact congrArg (fun t => memoryDB.mk (some t)) (AList.ext (Option.some.inj h)),
     fun h => by rw [h]⟩

/-- What `os.Open("db.json")` and the JSON decoder find at start-up: no file,
content on which `Decode` returns an error, the JSON value `null`, or a JSON
object. -/
inductive Snapshot where
  | missing
  | undecodable
  | null
  | object (items : AList (fun _ : GoString => GoAny))

/-- `newMemoryDB`. Without a file the store gets a fresh empty map. Otherwise
`items := map[string]any{}` is handed to `Decode`: an error is printed and
leaves the map empty, an object fills it, and the value `null` sets it to nil,
without an error. -/
def newMemoryDB : Snapshot → memoryDB
  | Snapshot.missing => ⟨some ∅⟩
  | Snapshot.undecodable => ⟨some ∅⟩
  | Snapshot.null => ⟨none⟩
  | Snapshot.object items => ⟨some items⟩

namespace memoryDB

/-- `memoryDB{items: map[string]any{}}`. -/
def empty : memoryDB := ⟨some ∅⟩

/-- `m.items[key] = value`. An assignment to an entry of the nil map panics:
the result is then `none`. -/
def set (m : memoryDB) (key value : GoString) : Option memoryDB :=
  match m.items with
  | none => none
  | some items => some ⟨some (items.insert key (GoAny.str value))⟩

/-- `value, found := m.items[key]; return value, found`. A read of the nil
map finds nothing. -/
def get (m : memoryDB) (key : GoString) : GoAny × Bool :=
  match m.items with
  | none => (GoAny.nil, false)
  | some items =>
    match items.lookup key with
    | some value => (value, true)
    | none => (GoAny.nil, false)

/-- `for k := range m.items { keys = append(keys, k) }`. A range over the nil
map has no iteration. -/
def keys (m : memoryDB) : List GoString :=
  match m.items with
  | none => []
  | some items => items.keys

/-- `delete(m.items, key)`. On the nil map `delete` does nothing. -/
def delete (m : memoryDB) (key : GoString) : memoryDB :=
  match m.items with
  | none => m
  | some items => ⟨some (items.erase key)⟩

end memoryDB

/-! ## The Go library functions the handler calls -/

/-- `unicode.IsSpace`: the Latin-1 spaces and the runes with the Unicode
White_Space property. -/
def isSpace (c : Char) : Bool :=
  let n := c.toNat
  n == 0x09 || n == 0x0A || n == 0x0B || n == 0x0C || n == 0x0D || n == 0x20
    || n == 0x85 || n == 0xA0 || n == 0x1680 || (0x2000 ≤ n && n ≤ 0x200A)
    || n == 0x2028 || n == 0x2029 || n == 0x202F || n == 0x205F || n == 0x3000

/-- `strings.TrimSpace`: the text without its leading and trailing white space. -/
def TrimSpace (s : GoString) : GoString :=
  ((s.dropWhile isSpace).reverse.dropWhile isSpace).reverse

/-- `unicode.ToLower`: an ASCII rune is lowered by arithmetic; any other rune
goes through the case table of the Go library, which is taken as the
parameter `tbl`. -/
def lowerRune (tbl : Char → Char) (c : Char) : Char :=
  if c.toNat < 128 then
    if 65 ≤ c.toNat ∧ c.toNat ≤ 90 then Char.ofNat (c.toNat + 32) else c
  else tbl c

/-- The number of bytes of a string in UTF-8, which is `len(s)` in Go. -/
def byteLen (s : GoString) : Nat :=
  (s.map Char.utf8Size).sum

/-- `bufio.MaxScanTokenSize`, the size to which the buffer of a default
`bufio.Scanner` can grow. -/
def MaxScanTokenSize : Nat := 64 * 1024

/-- `dropCR` of package `bufio`: the data without one trailing carriage
return. -/
def dropCR (data : GoString) : GoString :=
  if data.getLast? = some '\r' then data.dropLast else data

/-- `strings.ToLower`: `unicode.ToLower` applied to every rune. -/
def ToLower (tbl : Char → Char) (s : GoString) : GoString :=
  s.map (lowerRune tbl)

/-- `strings.Split(s, sep)` for a separator of one rune, the only way the
handler calls it: the pieces of `s` between the occurrences of `sep`, one
more piece than there are occurrences. -/
def Split (s : GoString) (sep : Char) : List GoString :=
  match s with
  | [] => [[]]
  | c :: cs =>
    if c = sep then [] :: Split cs sep
    else
      match Split cs sep with
      | [] => [[c]]
      | piece :: pieces => (c :: piece) :: pieces

/-- The `%v` verb on a value of the store. -/
def fmtAny : GoAny → GoString
  | GoAny.nil => "<nil>".toList
  | GoAny.str s => s
  | GoAny.decoded text => text

/-- The `%v` verb on a `[]string`: the elements separated by one space,
inside square brackets. -/
def fmtStrings (xs : List GoString) : GoString :=
  "[".toList ++ " ".toList.intercalate xs ++ "]".toList

/-! ## Connections and `write` -/

/-- The state of one `net.Conn` as the server sees it: the chunks written to
it so far (one per `Fprintf`), whether it has been closed on the server side,
and whether the peer is gone so that a write returns an error. -/
structure Conn where
  out : List GoString
  closed : Bool
  broken : Bool
  deriving DecidableEq, Repr

/-- A freshly accepted connection. -/
def Conn.fresh (broken : Bool) : Conn := ⟨[], false, broken⟩

/-- `conn.Close()`; closing twice only logs an error. -/
def Conn.Close (c : Conn) : Conn := { c with closed := true }

/-- Whether `fmt.Fprintf(conn, ...)` returns without an error. -/
def Conn.writable (c : Conn) : Bool := !c.closed && !c.broken

/-- The prompt marker that `write` appends: a newline, U+27A4 and a space. -/
def prompt : GoString := "\n➤ ".toList

/-- `write(conn, s)`: `fmt.Fprintf(conn, "%v\n➤ ", s)`, and `log.Fatal(err)`
when that fails. The argument is the `%v` text of `s`. `none` is the process
ended by `log.Fatal`. -/
def write (conn : Conn) (s : GoString) : Option Conn :=
  if conn.writable then some { conn with out := conn.out ++ [s ++ prompt] }
  else none

/-- The package variable `cmdList`. -/
def cmdList : GoString :=
  ("\n-----------------------------------------\n" ++
   "set    <key> <value> ➜ set a key-value pair\n" ++
   "get    <key>         ➜ get a value by key\n" ++
   "delete <key>         ➜ delete a key-value pair\n" ++
   "keys     *           ➜ get all keys\n" ++
   "-----------------------------------------\n").toList

/-! ## The session handler -/

/-- The body of the loop of `server.handleConn` for one line `text` that
`scanner.Scan()` delivered. The result is the store afterwards and the
connection afterwards, or `none` for the connection when the process ended,
by `log.Fatal` in `write` or by the panic of `set` on the nil map (the store
is then as it stood at that moment). -/
def handleLine (tbl : Char → Char) (db : memoryDB) (conn : Conn) (text : GoString) :
    memoryDB × Option Conn :=
  let l := ToLower tbl (TrimSpace text)
  let values := Split l ' '
  if values.length = 3 ∧ values.getD 0 [] = "set".toList then
    match db.set (values.getD 1 []) (values.getD 2 []) with
    | none => (db, none)
    | some db1 => (db1, write conn "OK".toList)
  else if values.length = 2 ∧ values.getD 0 [] = "get".toList then
    let k := values.getD 1 []
    match db.get k with
    | (_, false) => (db, write conn ("key ".toList ++ k ++ " not found".toList))
    | (val, true) => (db, write conn (fmtAny val))
  else if values.length = 2 ∧ values.getD 0 [] = "delete".toList then
    (db.delete (values.getD 1 []), write conn "OK".toList)
  else if values.length = 2 ∧ values.getD 0 [] = "keys".toList then
    if values.getD 1 [] = "*".toList then (db, write conn (fmtStrings db.keys))
    else (db, some conn)
  else if values.length = 1 ∧ values.getD 0 [] = "help".toList then
    (db, write conn cmdList)
  else if values.length = 1 ∧ values.getD 0 [] = "exit".toList then
    (db, some conn.Close)
  else
    (db, write conn ("UNKNOWN: ".toList ++ l))

/-- The lines in the bytes that a `bufio.Scanner` reads, as its default split
function `ScanLines` cuts them: every newline ends a line, and what follows
the last newline is a last line when it is not empty. The lines are without
their newline and still with a trailing carriage return. -/
def scanLines : GoString → List GoString
  | [] => []
  | c :: cs =>
    if c = '\n' then [] :: scanLines cs
    else
      match scanLines cs with
      | [] => [[c]]
      | line :: lines => (c :: line) :: lines

/-- `server.handleConn` on the lines of the input that the scanner reads from
the connection: `scanner := bufio.NewScanner(conn); for scanner.Scan() { ... }`.
The default scanner finds a line when the line and its newline fit in the
buffer of `MaxScanTokenSize` bytes; at a longer line `Scan` returns false and
`handleConn` returns, as it does at the end of the input. A line found is
handled as `scanner.Text()`, which is the line without a trailing carriage
return. The loop also ends when the process ended. -/
def handleConn (tbl : Char → Char) (db : memoryDB) (conn : Conn) :
    List GoString → memoryDB × Option Conn
  | [] => (db, some conn)
  | data :: rest =>
    if MaxScanTokenSize ≤ byteLen data then (db, some conn)
    else
      match handleLine tbl db conn (dropCR data) with
      | (db1, some conn1) => handleConn tbl db1 conn1 rest
      | (db1, none) => (db1, none)

/-! ## The server and the serve loop -/

/-- A `uuid.UUID`. -/
abbrev UUID := Nat

/-- A `net.Conn` value held by the server: a reference to a connection, here
its index in `Process.net`. -/
abbrev Handle := Nat

/-- `type server struct`. The listener and the two channels are kept as the
facts the code uses: whether the listener is open, whether `quit` and
`exited` have been closed. `connCloseTimeout` is kept as the text that
`timeout.String()` renders (`5s` for the value `newServer` sets). -/
structure server where
  listenerOpen : Bool
  quit : Bool
  exited : Bool
  db : memoryDB
  connections : AList (fun _ : UUID => Handle)
  connCloseTimeout : GoString

/-- The running process: the server, the local variable `id` of `serve`, the
connections the operating system holds for it (indexed by `Handle`), the
handler goroutines that are running, each with its `connID` argument and its
connection, every write of `db.json` so far, and whether `log.Fatal` or a
panic has ended the process. -/
structure Process where
  srv : server
  id : UUID
  net : List Conn
  handlers : List (UUID × Handle)
  saved : List (Option (AList (fun _ : GoString => GoAny)))
  aborted : Bool

/-- `newServer` after a successful `net.Listen`, with `go srv.serve()` up to
the loop: `db` is what `newMemoryDB()` loaded and `id` what `uuid.New()`
returned. -/
def newServer (db : memoryDB) (id : UUID) : Process :=
  { srv := { listenerOpen := true, quit := false, exited := false, db := db,
             connections := ∅, connCloseTimeout := "5s".toList },
    id := id, net := [], handlers := [], saved := [], aborted := false }

/-- What the environment and the goroutines can do next. -/
inductive Event where
  /-- The call `tcpListener.Accept()` returned a new connection; `broken` says
  whether the peer is already gone. -/
  | accepted (broken : Bool)
  /-- The scanner of the handler of `h` delivered the line `text`, which is
  the value of `scanner.Text()`. -/
  | line (h : Handle) (text : GoString)
  /-- The scanner of the handler of `h` returned false, at the end of the
  input, at a read error or at a line too long for its buffer: `handleConn`
  returns. -/
  | handlerExited (h : Handle)
  /-- The peer of `h` went away: writes to `h` fail from now on. -/
  | peerGone (h : Handle)

/-- Replace the connection behind `h`. -/
def setConn (net : List Conn) (h : Handle) (c : Conn) : List Conn :=
  net.set h c

/-- `write(conn, s)` on the connection behind `h`. -/
def writeTo (p : Process) (h : Handle) (s : GoString) : Process :=
  if p.aborted then p
  else
    match p.net[h]? with
    | none => p
    | some c =>
      match write c s with
      | some c1 => { p with net := setConn p.net h c1 }
      | none => { p with aborted := true }

/-- The `default` branch of `serve` when `Accept` returned a connection:
the welcome line, `srv.connections[id] = conn`, and the handler goroutine
started with `connID = id`. -/
def accept (p : Process) (broken : Bool) : Process :=
  let h := p.net.length
  let p1 := writeTo { p with net := p.net ++ [Conn.fresh broken] } h
    "Welcome to MemoryDB server".toList
  if p1.aborted then p1
  else
    { p1 with
      srv := { p1.srv with connections := p1.srv.connections.insert p1.id h },
      handlers := p1.handlers ++ [(p1.id, h)] }

/-- The end of the handler goroutine of `h`: after `srv.handleConn(conn)`
returned, `delete(srv.connections, connID)`. -/
def handlerExit (p : Process) (h : Handle) : Process :=
  match p.handlers.find? (fun g => g.2 == h) with
  | none => p
  | some g =>
    { p with
      srv := { p.srv with connections := p.srv.connections.erase g.1 },
      handlers := p.handlers.erase g }

/-- One event of the running process. Nothing happens any more once
`log.Fatal` or a panic has ended it; `Accept` returns connections only while
the listener is open. -/
def step (tbl : Char → Char) (p : Process) (e : Event) : Process :=
  if p.aborted then p
  else
    match e with
    | Event.accepted broken => if p.srv.listenerOpen then accept p broken else p
    | Event.line h text =>
      if p.handlers.any (fun g => g.2 == h) then
        match p.net[h]? with
        | none => p
        | some c =>
          match handleLine tbl p.srv.db c text with
          | (db1, some c1) =>
            { p with srv := { p.srv with db := db1 }, net := setConn p.net h c1 }
          | (db1, none) => { p with srv := { p.srv with db := db1 }, aborted := true }
      else p
    | Event.handlerExited h => handlerExit p h
    | Event.peerGone h =>
      match p.net[h]? with
      | none => p
      | some c => { p with net := setConn p.net h { c with broken := true } }

/-- A sequence of events, in order. -/
def run (tbl : Char → Char) (p : Process) (es : List Event) : Process :=
  es.foldl (step tbl) p

/-- `server.warnConnections`. -/
def warnConnections (p : Process) (timeout : GoString) : Process :=
  p.srv.connections.entries.foldl
    (fun q e => writeTo q e.2 ("host wants to shut down the server in: ".toList ++ timeout)) p

/-- `server.closeConnections`. -/
def closeConnections (p : Process) : Process :=
  p.srv.connections.entries.foldl
    (fun q e =>
      match q.net[e.2]? with
      | none => q
      | some c => { q with net := setConn q.net e.2 c.Close }) p

/-- The branch `case <-srv.quit` of `serve`; `grace` is what happens while
it waits on `time.After(srv.connCloseTimeout)`. -/
def serveQuit (tbl : Char → Char) (p : Process) (grace : List Event) : Process :=
  let p1 := { p with srv := { p.srv with listenerOpen := false } }
  let p2 :=
    if p1.srv.connections.entries.length > 0 then
      closeConnections (run tbl (warnConnections p1 p1.srv.connCloseTimeout) grace)
    else p1
  if p2.aborted then p2 else { p2 with srv := { p2.srv with exited := true } }

/-- `server.Stop`: close `quit`, wait for `exited`, then `srv.db.save()`. -/
def Stop (tbl : Char → Char) (p : Process) (grace : List Event) : Process :=
  if p.aborted then p
  else
    let p1 := serveQuit tbl { p with srv := { p.srv with quit := true } } grace
    if p1.aborted then p1 else { p1 with saved := p1.saved ++ [p1.srv.db.items] }

/-! ## Notions of the specification -/

/-- The command shapes the specification lists, on the tokens of a line:
`set` with 3 tokens, `get`, `delete` or `keys` with 2 tokens, `help` or
`exit` with 1 token. -/
def recognizedShape (values : List GoString) : Prop :=
  (values.length = 3 ∧ values.head? = some "set".toList) ∨
  (values.length = 2 ∧
    (values.head? = some "get".toList ∨ values.head? = some "delete".toList ∨
      values.head? = some "keys".toList)) ∨
  (values.length = 1 ∧
    (values.head? = some "help".toList ∨ values.head? = some "exit".toList))

instance : DecidablePred recognizedShape := fun values => by
  unfold recognizedShape
  infer_instance

/-- A case table that leaves every rune outside ASCII as it is. It is used
for concrete runs on ASCII text, where `unicode.ToLower` does not consult its
table. -/
def idTable : Char → Char := fun c => c

/-! # Theorems -/

/-! ## The store -/

theorem get_found (s : memoryDB) (k : GoString) :
    (s.get k).2 = true ↔ ∃ items, s.items = some items ∧ k ∈ items := by
  obtain ⟨m⟩ := s
  cases m with
  | none => simp [memoryDB.get]
  | some items =>
    simp only [memoryDB.get, Option.some.injEq, exists_eq_left']
    rw [← AList.lookup_isSome]
    cases items.lookup k <;> simp

theorem set_of_map (s : memoryDB) (k v : GoString) (h : s.items ≠ none) :
    ∃ s1, s.set k v = some s1 ∧ s1.items ≠ none := by
  obtain ⟨m⟩ := s
  cases m with
  | none => exact absurd rfl h
  | some items => exact ⟨_, rfl, fun e => Option.noConfusion e⟩

/-- C1: the store on which the claim fails. A snapshot that holds the JSON
value `null` leaves the store with the nil map; on that store `set` panics,
so no later `get` returns the value, and the handler that reads the line
`set a 1` ends the process without a reply. -/
theorem set_on_nil_map_panics :
    (newMemoryDB Snapshot.null).items = none ∧
    (newMemoryDB Snapshot.null).set "a".toList "1".toList = none ∧
    handleConn idTable (newMemoryDB Snapshot.null) (Conn.fresh false)
        (scanLines "set a 1\n".toList) =
      (newMemoryDB Snapshot.null, none) := by
  refine ⟨rfl, rfl, by decide⟩

/-- C2: after `delete k`, `get k` reports `found = false`, `get j` for every
other key `j` returns what it returned before, and when `k` was absent the
store after `delete k` is the store before. -/
theorem delete_frame (s : memoryDB) (k : GoString) :
    ((s.delete k).get k).2 = false ∧
    (∀ j : GoString, j ≠ k → (s.delete k).get j = s.get j) ∧
    ((s.get k).2 = false → s.delete k = s) := by
  obtain ⟨m⟩ := s
  cases m with
  | none => exact ⟨rfl, fun _ _ => rfl, fun _ => rfl⟩
  | some items =>
    refine ⟨?_, ?_, ?_⟩
    · simp [memoryDB.delete, memoryDB.get, AList.lookup_erase]
    · intro j hj
      simp [memoryDB.delete, memoryDB.get, AList.lookup_erase_ne hj]
    · intro h
      have hk : k ∉ items := by
        intro hmem
        have hfound := (get_found ⟨some items⟩ k).mpr ⟨items, rfl, hmem⟩
        rw [hfound] at h
        exact Bool.noConfusion h
      have hk2 : k ∉ items.entries.keys := hk
      exact congrArg (fun t => memoryDB.mk (some t))
        (AList.ext (List.kerase_of_not_mem_keys hk2))

theorem delete_frame_witness :
    ("a".toList ≠ "b".toList ∧
      ((newMemoryDB (Snapshot.object
          ((∅ : AList (fun _ : GoString => GoAny)).insert "a".toList
            (GoAny.str "1".toList)))).delete "b".toList).get "a".toList
        = (newMemoryDB (Snapshot.object
          ((∅ : AList (fun _ : GoString => GoAny)).insert "a".toList
            (GoAny.str "1".toList)))).get "a".toList) ∧
    (((newMemoryDB (Snapshot.object
          ((∅ : AList (fun _ : GoString => GoAny)).insert "a".toList
            (GoAny.str "1".toList)))).get "b".toList).2 = false ∧
      (newMemoryDB (Snapshot.object
          ((∅ : AList (fun _ : GoString => GoAny)).insert "a".toList
            (GoAny.str "1".toList)))).delete "b".toList
        = newMemoryDB (Snapshot.object
          ((∅ : AList (fun _ : GoString => GoAny)).insert "a".toList
            (GoAny.str "1".toList)))) :=
  ⟨⟨by decide,
    (delete_frame (newMemoryDB (Snapshot.object
          ((∅ : AList (fun _ : GoString => GoAny)).insert "a".toList
            (GoAny.str "1".toList)))) "b".toList).2.1 "a".toList
      (by decide)⟩,
   ⟨by decide,
    (delete_frame (newMemoryDB (Snapshot.object
          ((∅ : AList (fun _ : GoString => GoAny)).insert "a".toList
            (GoAny.str "1".toList)))) "b".toList).2.2 (by decide)⟩⟩

/-- C3: `keys` returns every key held in the store exactly once and nothing
else (the list has no duplicate, and a key is in it exactly when `get` finds
it); it is a read of the store, which it does not modify. After `set a 1` and
`set b 2` on the empty store, both of which succeed, the result is a
permutation of `[a, b]`. -/
theorem keys_exact (s : memoryDB) :
    s.keys.Nodup ∧
    (∀ k : GoString, k ∈ s.keys ↔ (s.get k).2 = true) ∧
    (∃ s1 s2 : memoryDB,
      memoryDB.empty.set "a".toList "1".toList = some s1 ∧
      s1.set "b".toList "2".toList = some s2 ∧
      s2.keys.Perm ["a".toList, "b".toList]) := by
  refine ⟨?_, ?_, ?_⟩
  · obtain ⟨m⟩ := s
    cases m with
    | none => exact List.nodup_nil
    | some items => exact items.keys_nodup
  · intro k
    rw [get_found]
    obtain ⟨m⟩ := s
    cases m with
    | none => simp [memoryDB.keys]
    | some items =>
      simp only [memoryDB.keys, Option.some.injEq, exists_eq_left']
      exact AList.mem_keys.symm
  · refine ⟨_, _, rfl, rfl, ?_⟩
    have h : (memoryDB.mk (some (((∅ : AList (fun _ : GoString => GoAny)).insert "a".toList
        (GoAny.str "1".toList)).insert "b".toList (GoAny.str "2".toList)))).keys
        = ["b".toList, "a".toList] := by decide
    rw [h]
    exact List.Perm.swap _ _ _

/-! ## Text lemmas -/

theorem TrimSpace_concat_space (t : GoString) (r : Char) (hr : isSpace r = true) :
    TrimSpace (t ++ [r]) = TrimSpace t := by
  have key : ∀ u : GoString,
      List.rdropWhile isSpace (List.dropWhile isSpace (u ++ [r])) =
        List.rdropWhile isSpace (List.dropWhile isSpace u) := by
    intro u
    induction u with
    | nil => simp [List.dropWhile, hr]
    | cons a u ih =>
      by_cases ha : isSpace a = true
      · simpa [List.dropWhile, ha] using ih
      · have e1 : List.dropWhile isSpace (a :: u ++ [r]) = (a :: u) ++ [r] := by
          simp [List.dropWhile, ha]
        have e2 : List.dropWhile isSpace (a :: u) = a :: u := by
          simp [List.dropWhile, ha]
        rw [e1, e2]
        exact List.rdropWhile_concat_pos isSpace (a :: u) r hr
  exact key t

theorem TrimSpace_dropCR (s : GoString) : TrimSpace (dropCR s) = TrimSpace s := by
  unfold dropCR
  split
  · rename_i h
    have e : s.dropLast ++ ['\r'] = s := List.dropLast_append_getLast? '\r' (by simp [h])
    rw [← TrimSpace_concat_space s.dropLast '\r' (by decide), e]
  · rfl

theorem handleLine_dropCR (tbl : Char → Char) (db : memoryDB) (conn : Conn)
    (text : GoString) :
    handleLine tbl db conn (dropCR text) = handleLine tbl db conn text := by
  unfold handleLine
  rw [TrimSpace_dropCR]

theorem handleConn_cons (tbl : Char → Char) (db : memoryDB) (conn : Conn)
    (text : GoString) (rest : List GoString) (hscan : byteLen text < MaxScanTokenSize) :
    handleConn tbl db conn (text :: rest) =
      match handleLine tbl db conn text with
      | (db1, some conn1) => handleConn tbl db1 conn1 rest
      | (db1, none) => (db1, none) := by
  rw [handleConn, if_neg (Nat.not_le_of_lt hscan), handleLine_dropCR]

theorem scanLines_line (text more : GoString) (hline : '\n' ∉ text) :
    scanLines (text ++ '\n' :: more) = text :: scanLines more := by
  induction text with
  | nil => simp [scanLines]
  | cons c cs ih =>
    have hc : c ≠ '\n' := fun e => hline (by simp [e])
    have hcs : '\n' ∉ cs := fun e => hline (List.mem_cons_of_mem _ e)
    simp [scanLines, hc, ih hcs]

theorem handleConn_too_long (tbl : Char → Char) (db : memoryDB) (conn : Conn)
    (text : GoString) (rest : List GoString) (hlong : MaxScanTokenSize ≤ byteLen text) :
    handleConn tbl db conn (text :: rest) = (db, some conn) := by
  rw [handleConn, if_pos hlong]

/-! ## The session handler -/

theorem write_of_writable (conn : Conn) (s : GoString) (hw : conn.writable = true) :
    write conn s = some { conn with out := conn.out ++ [s ++ prompt] } := by
  simp [write, hw]

theorem handleLine_unknown (tbl : Char → Char) (db : memoryDB) (conn : Conn)
    (text : GoString) (hw : conn.writable = true)
    (hshape : ¬ recognizedShape (Split (ToLower tbl (TrimSpace text)) ' ')) :
    handleLine tbl db conn text =
      (db, some { conn with
        out := conn.out ++ [("UNKNOWN: ".toList ++ ToLower tbl (TrimSpace text)) ++ prompt] }) := by
  unfold handleLine
  simp only []
  generalize Split (ToLower tbl (TrimSpace text)) ' ' = values at hshape
  cases values with
  | nil => simp [write, hw]
  | cons a rest =>
    simp only [recognizedShape, List.head?_cons, Option.some.injEq, not_or, not_and] at hshape
    obtain ⟨h3, h2, h1⟩ := hshape
    simp only [List.getD_cons_zero]
    rw [if_neg (fun h => h3 h.1 h.2)]
    rw [if_neg (fun h => (h2 h.1).1 h.2)]
    rw [if_neg (fun h => (h2 h.1).2.1 h.2)]
    rw [if_neg (fun h => (h2 h.1).2.2 h.2)]
    rw [if_neg (fun h => (h1 h.1).1 h.2)]
    rw [if_neg (fun h => (h1 h.1).2 h.2)]
    rw [write_of_writable _ _ hw]

/-- C4 (as amended): on a connection whose writes succeed, an input line
`text`, ended by its newline and shorter than 64 KiB so that the scanner
delivers it, whose tokens match no recognized command shape is answered by
one chunk, `UNKNOWN: ` followed by the line trimmed and lower-cased and by the
prompt marker; the store is left as it was, the connection stays open, and
the handler goes on with the input that follows. -/
theorem unknown_reply (tbl : Char → Char) (db : memoryDB) (conn : Conn) (text : GoString)
    (hline : '\n' ∉ text)
    (hscan : byteLen text < MaxScanTokenSize)
    (hw : conn.writable = true)
    (hshape : ¬ recognizedShape (Split (ToLower tbl (TrimSpace text)) ' ')) :
    ∀ more : GoString,
      handleConn tbl db conn (scanLines (text ++ '\n' :: more)) =
        handleConn tbl db
          { conn with
            out := conn.out ++ [("UNKNOWN: ".toList ++ ToLower tbl (TrimSpace text)) ++ prompt] }
          (scanLines more) := by
  intro more
  rw [scanLines_line text more hline, handleConn_cons tbl db conn text _ hscan,
    handleLine_unknown tbl db conn text hw hshape]

theorem unknown_reply_witness :
    ('\n' ∉ "foo bar baz".toList ∧ byteLen "foo bar baz".toList < MaxScanTokenSize ∧
      (Conn.fresh false).writable = true ∧
      ¬ recognizedShape (Split (ToLower idTable (TrimSpace "foo bar baz".toList)) ' ')) ∧
    handleConn idTable memoryDB.empty (Conn.fresh false) (scanLines "foo bar baz\n".toList) =
      (memoryDB.empty, some ⟨["UNKNOWN: foo bar baz\n➤ ".toList], false, false⟩) :=
  ⟨⟨by decide, by decide, by decide, by decide⟩,
   unknown_reply idTable memoryDB.empty (Conn.fresh false) "foo bar baz".toList
     (by decide) (by decide) (by decide) (by decide) []⟩

/-- C4 (as stated) fails: the line `FOO` matches no recognized shape, and the
reply is `UNKNOWN: foo`, not `UNKNOWN: ` followed by the line as it was sent. -/
theorem unknown_reply_not_verbatim :
    ¬ recognizedShape (Split (ToLower idTable (TrimSpace "FOO".toList)) ' ') ∧
    handleConn idTable memoryDB.empty (Conn.fresh false) (scanLines "FOO\n".toList) =
      (memoryDB.empty, some ⟨["UNKNOWN: foo\n➤ ".toList], false, false⟩) ∧
    handleConn idTable memoryDB.empty (Conn.fresh false) (scanLines "FOO\n".toList) ≠
      (memoryDB.empty, write (Conn.fresh false) ("UNKNOWN: ".toList ++ "FOO".toList)) := by
  refine ⟨by decide, by decide, by decide⟩

theorem handleLine_reply (tbl : Char → Char) (db : memoryDB) (conn : Conn)
    (text : GoString) (hw : conn.writable = true)
    (hset : db.items = none →
      ¬ ((Split (ToLower tbl (TrimSpace text)) ' ').length = 3 ∧
          (Split (ToLower tbl (TrimSpace text)) ' ').head? = some "set".toList))
    (hexit : Split (ToLower tbl (TrimSpace text)) ' ' ≠ ["exit".toList])
    (hkeys : ∀ t : GoString,
      Split (ToLower tbl (TrimSpace text)) ' ' = ["keys".toList, t] → t = "*".toList) :
    ∃ (reply : GoString) (db1 : memoryDB),
      handleLine tbl db conn text =
        (db1, some { conn with out := conn.out ++ [reply ++ prompt] }) := by
  unfold handleLine
  simp only []
  generalize Split (ToLower tbl (TrimSpace text)) ' ' = values at hset hexit hkeys
  split_ifs with h1 h2 h3 h4 h5 h6 h7
  · have hdb : db.items ≠ none := by
      intro hnil
      obtain ⟨a, b, c, habc⟩ := List.length_eq_three.mp h1.1
      subst habc
      exact hset hnil ⟨rfl, by simpa using h1.2⟩
    obtain ⟨db1, hdb1, _⟩ := set_of_map db (values.getD 1 []) (values.getD 2 []) hdb
    rw [hdb1]
    exact ⟨_, db1, by rw [write_of_writable _ _ hw]⟩
  · split
    · exact ⟨_, db, by rw [write_of_writable _ _ hw]⟩
    · exact ⟨_, db, by rw [write_of_writable _ _ hw]⟩
  · exact ⟨_, _, by rw [write_of_writable _ _ hw]⟩
  · exact ⟨_, db, by rw [write_of_writable _ _ hw]⟩
  · exfalso
    obtain ⟨a, b, hab⟩ := List.length_eq_two.mp h4.1
    subst hab
    have ha : a = "keys".toList := by simpa using h4.2
    subst ha
    exact h5 (by simpa using hkeys b rfl)
  · exact ⟨_, db, by rw [write_of_writable _ _ hw]⟩
  · exfalso
    obtain ⟨a, ha⟩ := List.length_eq_one.mp h7.1
    subst ha
    have ha : a = "exit".toList := by simpa using h7.2
    subst ha
    exact hexit rfl
  · exact ⟨_, db, by rw [write_of_writable _ _ hw]⟩

theorem handleLine_keys_no_star (tbl : Char → Char) (db : memoryDB) (conn : Conn)
    (text t : GoString)
    (hvalues : Split (ToLower tbl (TrimSpace text)) ' ' = ["keys".toList, t])
    (ht : t ≠ "*".toList) :
    handleLine tbl db conn text = (db, some conn) := by
  unfold handleLine
  simp only []
  rw [hvalues]
  have ht2 : ¬ t = ['*'] := ht
  simp [ht2]

/-- C6 (as amended): let `text` be an input line, ended by its newline and
shorter than 64 KiB, so that the scanner delivers it. On a connection whose
writes succeed, if the line is not the `exit` command, is not a two-token
`keys` line whose second token is not `*`, and is not a `set` line on a store
whose map is nil, then the handler writes exactly one chunk, a reply followed
by the prompt marker, before it goes on with the input that follows. If the
line is a two-token `keys` line whose second token is not `*`, the handler
writes nothing, leaves the store as it was and goes on with the input that
follows. -/
theorem one_reply (tbl : Char → Char) (db : memoryDB) (conn : Conn) (text : GoString)
    (hline : '\n' ∉ text)
    (hscan : byteLen text < MaxScanTokenSize) :
    (conn.writable = true →
      (db.items = none →
        ¬ ((Split (ToLower tbl (TrimSpace text)) ' ').length = 3 ∧
            (Split (ToLower tbl (TrimSpace text)) ' ').head? = some "set".toList)) →
      Split (ToLower tbl (TrimSpace text)) ' ' ≠ ["exit".toList] →
      (∀ t : GoString,
        Split (ToLower tbl (TrimSpace text)) ' ' = ["keys".toList, t] → t = "*".toList) →
      ∃ (reply : GoString) (db1 : memoryDB), ∀ more : GoString,
        handleConn tbl db conn (scanLines (text ++ '\n' :: more)) =
          handleConn tbl db1 { conn with out := conn.out ++ [reply ++ prompt] }
            (scanLines more)) ∧
    (∀ t : GoString,
      Split (ToLower tbl (TrimSpace text)) ' ' = ["keys".toList, t] → t ≠ "*".toList →
      ∀ more : GoString,
        handleConn tbl db conn (scanLines (text ++ '\n' :: more)) =
          handleConn tbl db conn (scanLines more)) := by
  constructor
  · intro hw hset hexit hkeys
    obtain ⟨reply, db1, h⟩ := handleLine_reply tbl db conn text hw hset hexit hkeys
    refine ⟨reply, db1, fun more => ?_⟩
    rw [scanLines_line text more hline, handleConn_cons tbl db conn text _ hscan, h]
  · intro t hvalues ht more
    rw [scanLines_line text more hline, handleConn_cons tbl db conn text _ hscan,
      handleLine_keys_no_star tbl db conn text t hvalues ht]

theorem one_reply_witness :
    ('\n' ∉ "help".toList ∧ byteLen "help".toList < MaxScanTokenSize ∧
      (Conn.fresh false).writable = true ∧
      Split (ToLower idTable (TrimSpace "help".toList)) ' ' ≠ ["exit".toList] ∧
      ∃ (reply : GoString) (db1 : memoryDB), ∀ more : GoString,
        handleConn idTable (newMemoryDB Snapshot.null) (Conn.fresh false)
            (scanLines ("help".toList ++ '\n' :: more)) =
          handleConn idTable db1
            { Conn.fresh false with out := (Conn.fresh false).out ++ [reply ++ prompt] }
            (scanLines more)) ∧
    ('\n' ∉ "keys x".toList ∧ byteLen "keys x".toList < MaxScanTokenSize ∧
      Split (ToLower idTable (TrimSpace "keys x".toList)) ' ' = ["keys".toList, "x".toList] ∧
      "x".toList ≠ "*".toList ∧
      handleConn idTable memoryDB.empty (Conn.fresh false) (scanLines "keys x\n".toList) =
        handleConn idTable memoryDB.empty (Conn.fresh false) (scanLines [])) :=
  ⟨⟨by decide, by decide, by decide, by decide,
    (one_reply idTable (newMemoryDB Snapshot.null) (Conn.fresh false) "help".toList
      (by decide) (by decide)).1 (by decide)
      (fun _ => by decide) (by decide)
      (fun t h => absurd h (by simp [Split, ToLower, TrimSpace, lowerRune, isSpace, idTable]))⟩,
   ⟨by decide, by decide, by decide, by decide,
    (one_reply idTable memoryDB.empty (Conn.fresh false) "keys x".toList (by decide)
      (by decide)).2 "x".toList (by decide) (by decide) []⟩⟩

/-- C6 (as stated) fails: the line `keys x` is not the `exit` command, and the
handler writes nothing for it. -/
theorem keys_without_star_no_reply :
    Split (ToLower idTable (TrimSpace "keys x".toList)) ' ' ≠ ["exit".toList] ∧
    handleConn idTable memoryDB.empty (Conn.fresh false) (scanLines "keys x\n".toList) =
      (memoryDB.empty, some (Conn.fresh false)) ∧
    (Conn.fresh false).out = [] := by
  refine ⟨by decide, by decide, rfl⟩

/-! ## The keys of the store -/

theorem Split_chars (sep : Char) (s : GoString) :
    ∀ piece ∈ Split s sep, ∀ c ∈ piece, c ∈ s := by
  induction s with
  | nil =>
    intro piece hp c hc
    simp [Split] at hp
    rw [hp] at hc
    exact hc
  | cons a cs ih =>
    intro piece hp c hc
    unfold Split at hp
    by_cases ha : a = sep
    · rw [if_pos ha] at hp
      rcases List.mem_cons.mp hp with h | h
      · rw [h] at hc
        exact absurd hc (List.not_mem_nil c)
      · exact List.mem_cons_of_mem _ (ih piece h c hc)
    · rw [if_neg ha] at hp
      cases hsplit : Split cs sep with
      | nil =>
        rw [hsplit] at hp
        simp at hp
        rw [hp] at hc
        simp at hc
        simp [hc]
      | cons q qs =>
        rw [hsplit] at hp ih
        rcases List.mem_cons.mp hp with h | h
        · rw [h] at hc
          rcases List.mem_cons.mp hc with h2 | h2
          · simp [h2]
          · exact List.mem_cons_of_mem _ (ih q (List.mem_cons_self _ _) c h2)
        · exact List.mem_cons_of_mem _ (ih piece (List.mem_cons_of_mem _ h) c hc)

theorem getD_chars (sep : Char) (s : GoString) (i : Nat) :
    ∀ c ∈ (Split s sep).getD i [], c ∈ s := by
  intro c hc
  rw [List.getD_eq_getElem?_getD] at hc
  cases h : (Split s sep)[i]? with
  | none =>
    rw [h] at hc
    exact absurd hc (List.not_mem_nil c)
  | some piece =>
    rw [h] at hc
    exact Split_chars sep s piece (List.getElem?_mem h) c hc

theorem ToLower_fixed (tbl : Char → Char)
    (hidem : ∀ c : Char, lowerRune tbl (lowerRune tbl c) = lowerRune tbl c) (s : GoString) :
    ∀ c ∈ ToLower tbl s, lowerRune tbl c = c := by
  intro c hc
  obtain ⟨d, _, hd⟩ := List.mem_map.mp hc
  rw [← hd]
  exact hidem d

theorem handleLine_keys (tbl : Char → Char)
    (hidem : ∀ c : Char, lowerRune tbl (lowerRune tbl c) = lowerRune tbl c)
    (db : memoryDB) (conn : Conn) (text : GoString)
    (hdb : ∀ k ∈ db.keys, ∀ c ∈ k, lowerRune tbl c = c) :
    ∀ k ∈ (handleLine tbl db conn text).1.keys, ∀ c ∈ k, lowerRune tbl c = c := by
  have htok : ∀ i : Nat, ∀ c ∈ (Split (ToLower tbl (TrimSpace text)) ' ').getD i [],
      lowerRune tbl c = c := fun i c hc =>
    ToLower_fixed tbl hidem _ c (getD_chars ' ' _ i c hc)
  unfold handleLine
  simp only []
  split_ifs
  · obtain ⟨m⟩ := db
    cases m with
    | none => exact hdb
    | some items =>
      intro k hk
      have hk2 : k ∈ (items.insert
          ((Split (ToLower tbl (TrimSpace text)) ' ').getD 1 []) _) := AList.mem_keys.mpr hk
      rcases (AList.mem_insert items).mp hk2 with h | h
      · rw [h]
        exact htok 1
      · exact hdb k (AList.mem_keys.mp h)
  · split <;> exact hdb
  · obtain ⟨m⟩ := db
    cases m with
    | none => exact hdb
    | some items =>
      intro k hk
      have hk2 : k ∈ items.erase ((Split (ToLower tbl (TrimSpace text)) ' ').getD 1 []) :=
        AList.mem_keys.mpr hk
      exact hdb k (AList.mem_keys.mp (AList.mem_erase.mp hk2).2)
  · exact hdb
  · exact hdb
  · exact hdb
  · exact hdb
  · exact hdb

theorem handleConn_keys (tbl : Char → Char)
    (hidem : ∀ c : Char, lowerRune tbl (lowerRune tbl c) = lowerRune tbl c)
    (lines : List GoString) :
    ∀ (db : memoryDB) (conn : Conn), (∀ k ∈ db.keys, ∀ c ∈ k, lowerRune tbl c = c) →
      ∀ k ∈ (handleConn tbl db conn lines).1.keys, ∀ c ∈ k, lowerRune tbl c = c := by
  induction lines with
  | nil =>
    intro db conn hdb
    exact hdb
  | cons text rest ih =>
    intro db conn hdb
    have hstep := handleLine_keys tbl hidem db conn (dropCR text) hdb
    unfold handleConn
    split_ifs
    · exact hdb
    · cases hres : handleLine tbl db conn (dropCR text) with
      | mk db1 r =>
        rw [hres] at hstep
        cases r with
        | none => exact hstep
        | some conn1 => exact ih db1 conn1 hstep

theorem lowerRune_idTable_idem (c : Char) :
    lowerRune idTable (lowerRune idTable c) = lowerRune idTable c := by
  by_cases h : c.toNat < 128
  · by_cases hup : 65 ≤ c.toNat ∧ c.toNat ≤ 90
    · have e : lowerRune idTable c = Char.ofNat (c.toNat + 32) := by
        simp [lowerRune, h, hup]
      rw [e]
      obtain ⟨n, hn⟩ : ∃ n, c.toNat = n := ⟨_, rfl⟩
      rw [hn] at hup ⊢
      obtain ⟨h65, h90⟩ := hup
      interval_cases n <;> decide
    · have e : lowerRune idTable c = c := by
        simp only [lowerRune, if_pos h, if_neg hup]
      rw [e, e]
  · have e : lowerRune idTable c = c := by
      simp only [lowerRune, if_neg h, idTable]
    rw [e, e]

/-- C7 (as amended): starting from the empty store, after the handler has
processed any finite sequence of lines, every key held in the store is equal
to its own lower-casing (it may be the empty string). `unicode.ToLower` of
the Go library is assumed to be idempotent. -/
theorem keys_lowered (tbl : Char → Char)
    (hidem : ∀ c : Char, lowerRune tbl (lowerRune tbl c) = lowerRune tbl c)
    (conn : Conn) (lines : List GoString) :
    ∀ k ∈ (handleConn tbl memoryDB.empty conn lines).1.keys, ToLower tbl k = k := by
  intro k hk
  have hfix := handleConn_keys tbl hidem lines memoryDB.empty conn
    (fun k hk => absurd hk (List.not_mem_nil k)) k hk
  unfold ToLower
  rw [List.map_congr_left hfix]
  exact List.map_id k

theorem keys_lowered_witness :
    (∀ c : Char, lowerRune idTable (lowerRune idTable c) = lowerRune idTable c) ∧
    ∀ k ∈ (handleConn idTable memoryDB.empty (Conn.fresh false)
        ["SET Key v".toList, "set  x".toList]).1.keys, ToLower idTable k = k :=
  ⟨lowerRune_idTable_idem,
   keys_lowered idTable lowerRune_idTable_idem (Conn.fresh false)
     ["SET Key v".toList, "set  x".toList]⟩

/-- C7 (as stated) fails: after the line `set  x` (two spaces) on the empty
store, the store holds the empty string as a key. -/
theorem empty_key_stored :
    (handleConn idTable memoryDB.empty (Conn.fresh false) ["set  x".toList]).1.keys = [[]] ∧
    (handleConn idTable memoryDB.empty (Conn.fresh false) ["set  x".toList]).1.get [] =
      (GoAny.str "x".toList, true) := by
  refine ⟨by decide, by decide⟩

/-! ## The registry and the shutdown -/

/-- C8: the run of `serve` on which the claim fails. With two connections
accepted and both handlers running, the registry holds one entry, for the
second connection under the one `id` of `serve`: the first connection has no
entry. When the handler of the first connection then exits, it deletes that
entry, and the second connection, still served, has no entry either. -/
theorem registry_single_id :
    (run idTable (newServer memoryDB.empty 7)
        [Event.accepted false, Event.accepted false]).handlers = [(7, 0), (7, 1)] ∧
    (run idTable (newServer memoryDB.empty 7)
        [Event.accepted false, Event.accepted false]).srv.connections.entries = [⟨7, 1⟩] ∧
    (run idTable (newServer memoryDB.empty 7)
        [Event.accepted false, Event.accepted false, Event.handlerExited 0]).handlers
      = [(7, 1)] ∧
    (run idTable (newServer memoryDB.empty 7)
        [Event.accepted false, Event.accepted false,
          Event.handlerExited 0]).srv.connections.entries = [] := by
  refine ⟨by decide, by decide, by decide, by decide⟩

/-- C9: the shutdown on which the claim fails. With three connections
accepted and open, `Stop` writes the warning to the third connection only and
closes the third connection only; the first two receive nothing after the
welcome line and stay open, while the server reports exited and saves the
store once. -/
theorem shutdown_reaches_last_only :
    (Stop idTable (run idTable (newServer memoryDB.empty 7)
        [Event.accepted false, Event.accepted false, Event.accepted false]) []).net =
      [⟨["Welcome to MemoryDB server\n➤ ".toList], false, false⟩,
       ⟨["Welcome to MemoryDB server\n➤ ".toList], false, false⟩,
       ⟨["Welcome to MemoryDB server\n➤ ".toList,
          "host wants to shut down the server in: 5s\n➤ ".toList], true, false⟩] ∧
    (Stop idTable (run idTable (newServer memoryDB.empty 7)
        [Event.accepted false, Event.accepted false, Event.accepted false]) []).srv.exited
      = true ∧
    (Stop idTable (run idTable (newServer memoryDB.empty 7)
        [Event.accepted false, Event.accepted false, Event.accepted false]) []).saved.length
      = 1 := by
  refine ⟨by decide, by decide, by decide⟩

/-! ## Write failures -/

end MemDB
